import Mathlib

/-!
Verification of the document-extraction frontend
(src/frontend/src/app/upload/page.tsx and src/frontend/src/app/invoices/page.tsx).

The development shallowly embeds the client-side logic of the upload page:

* the typed invoice snapshot (interface ExtractedData) and the value-level
  semantics of handleEditField (assignment through a dotted path followed by
  the conditional recomputation of the line total and the order totals);
* the step-list upsert updateStep;
* the SSE frame-processing loop of handleUpload, as a fold of a
  frame-transition function over the list of decoded frames, together with
  the surrounding try/catch that synthesizes the ERR_NETWORK result;
* the page-number state of the invoices listing page;
* a small JavaScript object-store model of handleEditField that makes the
  sharing of nested objects between the spread copy and the caller snapshot
  explicit (needed for the aliasing claim about mutation of the original).

JavaScript numbers are modelled as rationals; every definition is-
executable so that concrete runs can be checked by decide or rfl.
-/

/-! ## Typed invoice snapshot (interface ExtractedData, upload/page.tsx lines 21-44) -/

/-- Postal address block of the header (bill_to / ship_to). -/
structure Address where
  name : String
  address : String
  city : String
  state : String
  zip : String
deriving DecidableEq, Repr

/-- Invoice header (ExtractedData.header). -/
structure Header where
  invoice_number : String
  date : String
  customer_id : Option String
  company_name : String
  bill_to : Address
  ship_to : Address
deriving DecidableEq, Repr

/-- One invoice line (elements of ExtractedData.line_items).
JavaScript numbers are modelled as rationals. -/
structure LineItem where
  item_number : String
  description : String
  quantity : ℚ
  unit_price : ℚ
  total : ℚ
deriving DecidableEq, Repr

/-- Order totals (ExtractedData.totals). -/
structure Totals where
  subtotal : ℚ
  tax_rate : ℚ
  tax_amount : ℚ
  shipping : ℚ
  total : ℚ
deriving DecidableEq, Repr

/-- The extracted invoice snapshot (interface ExtractedData). -/
structure ExtractedData where
  header : Header
  line_items : List LineItem
  totals : Totals
deriving DecidableEq, Repr

/-! ## Edits applied by handleEditField (upload/page.tsx lines 225-243)

The UI calls handleEditField with dotted paths of exactly these shapes
(lines 520-547): header.invoice_number, header.date, header.customer_id,
header.company_name, and line_items.i.item_number / .description /
.quantity / .unit_price.  The edit type below enumerates those paths;
quantity and unit_price edits carry the already-parsed number (the callers
apply parseInt / parseFloat with a fallback to 0 before the call). -/

/-- The four header fields edited by the UI. -/
inductive HeaderField
  | invoiceNumber
  | date
  | customerId
  | companyName
deriving DecidableEq, Repr

/-- The two text fields of a line item edited by the UI. -/
inductive ItemTextField
  | itemNumber
  | description
deriving DecidableEq, Repr

/-- A single-field edit, addressed the way the UI addresses it. -/
inductive Edit
  | header (f : HeaderField) (v : String)
  | itemText (i : ℕ) (f : ItemTextField) (v : String)
  | itemQuantity (i : ℕ) (v : ℚ)
  | itemUnitPrice (i : ℕ) (v : ℚ)
deriving DecidableEq, Repr

/-- In-place update of one list element, as the dotted-path assignment does
on the line_items array.  Out-of-range indices are left untouched here; in
the JavaScript source an out-of-range index would throw while walking the
path, and the UI only ever edits existing rows. -/
def modifyIdx : List α → ℕ → (α → α) → List α
  | [], _, _ => []
  | x :: xs, 0, f => f x :: xs
  | x :: xs, n + 1, f => x :: modifyIdx xs n f

/-- Assignment of a header field (obj[keys[keys.length-1]] = value on the
header object).  customer_id receives the raw string typed by the user. -/
def setHeaderField (h : Header) : HeaderField → String → Header
  | .invoiceNumber, v => { h with invoice_number := v }
  | .date, v => { h with date := v }
  | .customerId, v => { h with customer_id := some v }
  | .companyName, v => { h with company_name := v }

/-- Assignment of a line-item text field. -/
def setItemTextField (it : LineItem) : ItemTextField → String → LineItem
  | .itemNumber, v => { it with item_number := v }
  | .description, v => { it with description := v }

/-- The subtotal reduction of line 238:
updated.line_items.reduce((sum, li) => sum + li.total, 0). -/
def sumTotals (items : List LineItem) : ℚ :=
  items.foldl (fun sum li => sum + li.total) 0

/-- The recomputation block of handleEditField (lines 234-241), run whenever
the dotted path contains the substring line_items.  It receives the snapshot
after the raw assignment and the index parsed from the path, sets the line
total of that line to quantity * unit_price, and then rebuilds subtotal,
tax_amount and total in order, each later field reading the just-written
earlier ones. -/
def recompute (d : ExtractedData) (idx : ℕ) : ExtractedData :=
  let items := modifyIdx d.line_items idx
    (fun it => { it with total := it.quantity * it.unit_price })
  let subtotal := sumTotals items
  let tax_amount := subtotal * (d.totals.tax_rate / 100)
  { d with
    line_items := items
    totals := { d.totals with
      subtotal := subtotal
      tax_amount := tax_amount
      total := subtotal + tax_amount + d.totals.shipping } }

/-- Value-level semantics of handleEditField (lines 225-243): apply the raw
assignment addressed by the dotted path, then run the recomputation exactly
when the path contains line_items - which is the case for every line-item
edit, including the text fields.  This function describes the contents of
the snapshot produced by the call; the aliasing behaviour of the shallow
spread copy is modelled separately below on a JavaScript object store. -/
def applyEdit (d : ExtractedData) : Edit → ExtractedData
  | .header f v => { d with header := setHeaderField d.header f v }
  | .itemText i f v =>
      recompute { d with line_items := modifyIdx d.line_items i (fun it => setItemTextField it f v) } i
  | .itemQuantity i v =>
      recompute { d with line_items := modifyIdx d.line_items i (fun it => { it with quantity := v }) } i
  | .itemUnitPrice i v =>
      recompute { d with line_items := modifyIdx d.line_items i (fun it => { it with unit_price := v }) } i

/-! ### Basic lemmas about modifyIdx and sumTotals -/

theorem modifyIdx_length (l : List α) (i : ℕ) (f : α → α) :
    (modifyIdx l i f).length = l.length := by
  induction l generalizing i with
  | nil => rfl
  | cons x xs ih =>
    cases i with
    | zero => rfl
    | succ n => simp [modifyIdx, ih]

theorem get?_modifyIdx_self (l : List α) (i : ℕ) (f : α → α) :
    (modifyIdx l i f).get? i = (l.get? i).map f := by
  induction l generalizing i with
  | nil => cases i <;> rfl
  | cons x xs ih =>
    cases i with
    | zero => rfl
    | succ n => simpa [modifyIdx] using ih n

theorem get?_modifyIdx_ne (l : List α) (i j : ℕ) (f : α → α) (h : i ≠ j) :
    (modifyIdx l i f).get? j = l.get? j := by
  induction l generalizing i j with
  | nil => cases i <;> rfl
  | cons x xs ih =>
    cases i with
    | zero =>
      cases j with
      | zero => exact absurd rfl h
      | succ m => rfl
    | succ n =>
      cases j with
      | zero => rfl
      | succ m => simpa [modifyIdx] using ih n m (by omega)

theorem modifyIdx_modifyIdx (l : List α) (i : ℕ) (f g : α → α) :
    modifyIdx (modifyIdx l i f) i g = modifyIdx l i (fun x => g (f x)) := by
  induction l generalizing i with
  | nil => rfl
  | cons x xs ih =>
    cases i with
    | zero => rfl
    | succ n => simp [modifyIdx, ih]

theorem sumTotals_eq_sum_map (items : List LineItem) :
    sumTotals items = (items.map (fun li => li.total)).sum := by
  rw [sumTotals, List.sum_eq_foldl, List.foldl_map]

theorem exists_get?_totalFix (l : List LineItem) (i : ℕ) (hi : i < l.length) :
    ∃ it, (modifyIdx l i (fun it => { it with total := it.quantity * it.unit_price })).get? i
        = some it ∧ it.total = it.quantity * it.unit_price := by
  rcases hq : l.get? i with _ | x0
  · rw [List.get?_eq_none] at hq
    omega
  · exact ⟨_, by rw [get?_modifyIdx_self, hq, Option.map_some'], rfl⟩

/-! ## Claim C1: recomputation after a quantity or unit-price edit -/

/-- Claim C1: for every edit to a line-item quantity or unit price applied by
handleEditField, the resulting snapshot satisfies: the edited line total
equals quantity * unit_price, totals.subtotal equals the sum of all line
totals, totals.tax_amount equals subtotal * (tax_rate / 100), and
totals.total equals subtotal + tax_amount + shipping; in particular when the
resulting snapshot has tax_rate = 8, subtotal = 100 and shipping = 5, the
recomputed tax_amount is 8 and the grand total is 113. -/
theorem handleEditField_recompute_invariants (d : ExtractedData) (e : Edit)
    (i : ℕ) (v : ℚ)
    (he : e = Edit.itemQuantity i v ∨ e = Edit.itemUnitPrice i v)
    (hi : i < d.line_items.length) :
    (∃ it, (applyEdit d e).line_items.get? i = some it ∧
      it.total = it.quantity * it.unit_price) ∧
    (applyEdit d e).totals.subtotal = ((applyEdit d e).line_items.map (fun li => li.total)).sum ∧
    (applyEdit d e).totals.tax_amount =
      (applyEdit d e).totals.subtotal * ((applyEdit d e).totals.tax_rate / 100) ∧
    (applyEdit d e).totals.total =
      (applyEdit d e).totals.subtotal + (applyEdit d e).totals.tax_amount +
        (applyEdit d e).totals.shipping ∧
    ((applyEdit d e).totals.tax_rate = 8 → (applyEdit d e).totals.subtotal = 100 →
      (applyEdit d e).totals.shipping = 5 →
      (applyEdit d e).totals.tax_amount = 8 ∧ (applyEdit d e).totals.total = 113) := by
  rcases he with rfl | rfl <;>
  · refine ⟨?_, ?_, rfl, rfl, ?_⟩
    · simp only [applyEdit, recompute]
      exact exists_get?_totalFix _ i (by rw [modifyIdx_length]; exact hi)
    · simp only [applyEdit, recompute]
      exact sumTotals_eq_sum_map _
    · intro h8 h100 h5
      simp only [applyEdit, recompute] at h8 h100 h5 ⊢
      rw [h100, h8, h5]
      norm_num

/-- Concrete invoice used to instantiate claim C1: one line, quantity 1 at
unit price 10, tax rate 8 percent, shipping 5. -/
def sampleInvoiceC1 : ExtractedData :=
  { header :=
    { invoice_number := "INV-100"
      date := "2024-01-01"
      customer_id := some "C1"
      company_name := "ACME"
      bill_to := { name := "A", address := "1 Road", city := "X", state := "Y", zip := "0" }
      ship_to := { name := "B", address := "2 Road", city := "X", state := "Y", zip := "0" } }
    line_items :=
      [{ item_number := "1", description := "widget", quantity := 1, unit_price := 10, total := 10 }]
    totals := { subtotal := 10, tax_rate := 8, tax_amount := 4/5, shipping := 5, total := 158/10 } }

/-- Witness for claim C1: editing the quantity of line 0 of the sample
invoice to 10 yields subtotal 100, tax 8 and grand total 113. -/
theorem handleEditField_recompute_invariants_witness :
    (∃ it, (applyEdit sampleInvoiceC1 (Edit.itemQuantity 0 10)).line_items.get? 0 = some it ∧
      it.total = it.quantity * it.unit_price) ∧
    (applyEdit sampleInvoiceC1 (Edit.itemQuantity 0 10)).totals.tax_amount = 8 ∧
    (applyEdit sampleInvoiceC1 (Edit.itemQuantity 0 10)).totals.total = 113 := by
  have h := handleEditField_recompute_invariants sampleInvoiceC1
    (Edit.itemQuantity 0 10) 0 10 (Or.inl rfl) (by decide)
  have hc := h.2.2.2.2 rfl
    (by norm_num [applyEdit, recompute, sumTotals, modifyIdx, sampleInvoiceC1]) rfl
  exact ⟨h.1, hc.1, hc.2⟩

/-! ## Claim C5: edits outside quantity and unit price

The recomputation branch of handleEditField is guarded by
field.includes(line_items), so it also runs for the two text fields of a
line item.  On snapshots whose stored line totals disagree with
quantity * unit_price, a description edit therefore changes the totals;
the claim as stated fails.  Header edits really are verbatim, and line-item
text edits keep all derived fields whenever the snapshot already satisfies
the derived-total invariants. -/

/-- The derived-total invariants of the data model: every line total equals
quantity * unit_price, subtotal is the reduce over line totals, tax_amount
is subtotal * (tax_rate / 100), and total is subtotal + tax + shipping. -/
def consistentTotals (d : ExtractedData) : Prop :=
  (∀ it ∈ d.line_items, it.total = it.quantity * it.unit_price) ∧
  d.totals.subtotal = sumTotals d.line_items ∧
  d.totals.tax_amount = d.totals.subtotal * (d.totals.tax_rate / 100) ∧
  d.totals.total = d.totals.subtotal + d.totals.tax_amount + d.totals.shipping

/-- A snapshot whose stored line total disagrees with quantity * unit_price,
as an imperfect extraction can produce. -/
def inconsistentInvoice : ExtractedData :=
  { header :=
    { invoice_number := "INV-200"
      date := "2024-02-02"
      customer_id := none
      company_name := "ACME"
      bill_to := { name := "A", address := "1 Road", city := "X", state := "Y", zip := "0" }
      ship_to := { name := "B", address := "2 Road", city := "X", state := "Y", zip := "0" } }
    line_items :=
      [{ item_number := "1", description := "gadget", quantity := 2, unit_price := 5, total := 11 }]
    totals := { subtotal := 11, tax_rate := 0, tax_amount := 0, shipping := 0, total := 11 } }

/-- Counterexample to claim C5 as stated: editing the description of line 0
of the inconsistent snapshot changes totals.subtotal (from 11 to 10),
because the recomputation branch also runs for line-item text edits. -/
theorem description_edit_changes_subtotal :
    (applyEdit inconsistentInvoice
        (Edit.itemText 0 ItemTextField.description "new description")).totals.subtotal
      ≠ inconsistentInvoice.totals.subtotal := by
  norm_num [applyEdit, recompute, sumTotals, modifyIdx, setItemTextField, inconsistentInvoice]

theorem setItemTextField_quantity (it : LineItem) (f : ItemTextField) (v : String) :
    (setItemTextField it f v).quantity = it.quantity := by
  cases f <;> rfl

theorem setItemTextField_unit_price (it : LineItem) (f : ItemTextField) (v : String) :
    (setItemTextField it f v).unit_price = it.unit_price := by
  cases f <;> rfl

theorem Totals.ext_fields (a b : Totals) (h1 : a.subtotal = b.subtotal)
    (h2 : a.tax_rate = b.tax_rate) (h3 : a.tax_amount = b.tax_amount)
    (h4 : a.shipping = b.shipping) (h5 : a.total = b.total) : a = b := by
  cases a
  cases b
  simp_all

/-- Claim C5, amended: edits to header fields apply the value verbatim with
no recomputation, leaving every line total and the totals object unchanged;
edits to a line-item description or item number also apply the value
verbatim but still trigger the recomputation, so they leave the line totals
and the totals object unchanged provided the snapshot already satisfies the
derived-total invariants. -/
theorem handleEditField_nonNumeric_edits (d : ExtractedData) (e : Edit)
    (h : (∃ f v, e = Edit.header f v) ∨
         (∃ i f v, e = Edit.itemText i f v ∧ consistentTotals d)) :
    (applyEdit d e).totals = d.totals ∧
    (applyEdit d e).line_items.map (fun li => li.total)
      = d.line_items.map (fun li => li.total) := by
  rcases h with ⟨f, v, rfl⟩ | ⟨i, f, v, rfl, hc⟩
  · exact ⟨rfl, rfl⟩
  · have hmapEq : (applyEdit d (Edit.itemText i f v)).line_items.map (fun li => li.total)
        = d.line_items.map (fun li => li.total) := by
      simp only [applyEdit, recompute, modifyIdx_modifyIdx]
      apply List.ext
      intro n
      rw [List.get?_map, List.get?_map]
      rcases eq_or_ne i n with rfl | hne
      · rw [get?_modifyIdx_self]
        rcases hx : d.line_items.get? i with _ | x
        · rfl
        · have hx' : x ∈ d.line_items := List.get?_mem hx
          have hxt := hc.1 x hx'
          simp only [Option.map_some']
          cases f <;> simp [setItemTextField, hxt]
      · rw [get?_modifyIdx_ne _ _ _ _ hne]
    have hsub : (applyEdit d (Edit.itemText i f v)).totals.subtotal = d.totals.subtotal := by
      have h1 : (applyEdit d (Edit.itemText i f v)).totals.subtotal
          = sumTotals (applyEdit d (Edit.itemText i f v)).line_items := rfl
      rw [h1, sumTotals_eq_sum_map, hmapEq, ← sumTotals_eq_sum_map, ← hc.2.1]
    have htax : (applyEdit d (Edit.itemText i f v)).totals.tax_amount = d.totals.tax_amount := by
      have h2 : (applyEdit d (Edit.itemText i f v)).totals.tax_amount
          = (applyEdit d (Edit.itemText i f v)).totals.subtotal * (d.totals.tax_rate / 100) := rfl
      rw [h2, hsub, ← hc.2.2.1]
    have htot : (applyEdit d (Edit.itemText i f v)).totals.total = d.totals.total := by
      have h3 : (applyEdit d (Edit.itemText i f v)).totals.total
          = (applyEdit d (Edit.itemText i f v)).totals.subtotal
            + (applyEdit d (Edit.itemText i f v)).totals.tax_amount
            + d.totals.shipping := rfl
      rw [h3, hsub, htax, ← hc.2.2.2]
    exact ⟨Totals.ext_fields _ _ hsub rfl htax rfl htot, hmapEq⟩

/-- Witness for the amended claim C5: renaming the company on the sample
invoice leaves the totals object and every line total unchanged. -/
theorem handleEditField_nonNumeric_edits_witness :
    (applyEdit sampleInvoiceC1 (Edit.header HeaderField.companyName "NewCo")).totals
      = sampleInvoiceC1.totals ∧
    (applyEdit sampleInvoiceC1 (Edit.header HeaderField.companyName "NewCo")).line_items.map
        (fun li => li.total)
      = sampleInvoiceC1.line_items.map (fun li => li.total) :=
  handleEditField_nonNumeric_edits sampleInvoiceC1 _ (Or.inl ⟨_, _, rfl⟩)

/-! ## Processing steps and updateStep (upload/page.tsx lines 56-61, 108-123) -/

/-- One entry of the displayed step list (type Step of the source).  The
status union of the TS type is not enforced at runtime, so the status is
carried as the raw string received from the server. -/
structure Step where
  id : String
  label : String
  status : String
  message : Option String
deriving DecidableEq, Repr

/-- The label table of lines 114-120 together with the fallback
labels[stepId] || stepId: known ids get their label, unknown ids label
themselves. -/
def stepLabel (stepId : String) : String :=
  if stepId = "validate" then "Validating file"
  else if stepId = "upload" then "Reading image"
  else if stepId = "analyze" then "Analyzing with AI"
  else if stepId = "extract" then "Validating data"
  else if stepId = "save" then "Saving to database"
  else stepId

/-- The expression message || s.message of line 112: the incoming message
wins only when it is present and non-empty; otherwise (absent message, or
the empty string, both falsy in JavaScript) the stored message is kept. -/
def mergeMessage (m old : Option String) : Option String :=
  match m with
  | some s => if s = "" then old else some s
  | none => old

/-- updateStep (lines 108-123): if an entry with the given id exists,
update status and message in place on every matching entry; otherwise
append a fresh labelled entry carrying the raw message. -/
def updateStep (steps : List Step) (stepId : String) (status : String)
    (message : Option String) : List Step :=
  if (steps.find? (fun s => s.id == stepId)).isSome then
    steps.map (fun s =>
      if s.id == stepId then
        { s with status := status, message := mergeMessage message s.message }
      else s)
  else
    steps ++ [{ id := stepId, label := stepLabel stepId, status := status, message := message }]

/-- A decoded step event: the step, status and message fields of one SSE
frame payload. -/
structure StepEvent where
  id : String
  status : String
  message : Option String
deriving DecidableEq, Repr

/-- The step list held by one upload session after processing the given
step events in order through updateStep, starting from the empty list. -/
def runSteps (evs : List StepEvent) : List Step :=
  evs.foldl (fun acc e => updateStep acc e.id e.status e.message) []

/-! ### Specification-side projections of an event sequence -/

/-- The ids of a sequence in first-seen order, each exactly once. -/
def firstSeen (l : List String) : List String :=
  l.foldl (fun acc x => if x ∈ acc then acc else acc ++ [x]) []

/-- The events of the sequence addressed to the given id, in order. -/
def eventsFor (evs : List StepEvent) (id : String) : List StepEvent :=
  evs.filter (fun e => e.id == id)

/-- The status of the last event received for the given id. -/
def lastStatus (evs : List StepEvent) (id : String) : Option String :=
  ((eventsFor evs id).getLast?).map (fun e => e.status)

/-- The message carried by the most recent event for the given id whose
message field is present (reading of the claim: the most recent message
received). -/
def lastMessageReceived (evs : List StepEvent) (id : String) : Option String :=
  ((eventsFor evs id).filterMap (fun e => e.message)).getLast?

/-- The message the code actually stores for an id: the message of the
first event for that id, overridden by each later present non-empty
message. -/
def entryMessage (evs : List StepEvent) (id : String) : Option String :=
  match eventsFor evs id with
  | [] => none
  | e :: rest => rest.foldl (fun acc e2 => mergeMessage e2.message acc) e.message

/-! ## Claim C9: repeats with falsy messages keep the stored message -/

/-- Claim C9: when updateStep processes a repeated event (an entry with the
id exists) whose message is absent or the empty string, every matching
entry keeps its previously stored message while its status is replaced by
the new status. -/
theorem updateStep_falsy_message_keeps_old (steps : List Step) (id st : String)
    (m : Option String) (hm : m = none ∨ m = some "")
    (hmem : (steps.find? (fun s => s.id == id)).isSome) :
    updateStep steps id st m
      = steps.map (fun s => if s.id == id then { s with status := st } else s) := by
  rw [updateStep, if_pos hmem]
  refine List.map_congr_left fun s _ => ?_
  rcases hm with rfl | rfl <;> by_cases h : s.id == id <;> simp [h, mergeMessage]

/-- A one-entry step list with a stored message, for the C9 witness. -/
def stepsC9 : List Step :=
  [{ id := "analyze", label := "Analyzing with AI", status := "active", message := some "working" }]

/-- Witness for claim C9: a repeated analyze event with an empty message
replaces the status and keeps the message working. -/
theorem updateStep_falsy_message_keeps_old_witness :
    updateStep stepsC9 "analyze" "complete" (some "")
      = [{ id := "analyze", label := "Analyzing with AI", status := "complete",
           message := some "working" }] := by
  rw [updateStep_falsy_message_keeps_old stepsC9 "analyze" "complete" (some "")
    (Or.inr rfl) (by decide)]
  decide

/-! ### Lemmas about the specification-side projections -/

theorem find?_id_isSome_iff (steps : List Step) (id : String) :
    (steps.find? (fun s => s.id == id)).isSome ↔ id ∈ steps.map (fun s => s.id) := by
  rw [List.find?_isSome]
  constructor
  · rintro ⟨x, hx, hbeq⟩
    exact List.mem_map.mpr ⟨x, hx, by simpa using hbeq⟩
  · intro hmem
    obtain ⟨x, hx, hxe⟩ := List.mem_map.mp hmem
    exact ⟨x, hx, by simp [hxe]⟩

theorem mem_firstSeenAux (l : List String) (acc : List String) (x : String) :
    (x ∈ l.foldl (fun a y => if y ∈ a then a else a ++ [y]) acc) ↔ x ∈ acc ∨ x ∈ l := by
  induction l generalizing acc with
  | nil => simp
  | cons y t ih =>
    simp only [List.foldl_cons, List.mem_cons]
    by_cases h : y ∈ acc
    · rw [if_pos h, ih]
      constructor
      · rintro (hx | hx)
        · exact Or.inl hx
        · exact Or.inr (Or.inr hx)
      · rintro (hx | rfl | hx)
        · exact Or.inl hx
        · exact Or.inl h
        · exact Or.inr hx
    · rw [if_neg h, ih]
      simp only [List.mem_append, List.mem_singleton]
      constructor
      · rintro ((hx | rfl) | hx)
        · exact Or.inl hx
        · exact Or.inr (Or.inl rfl)
        · exact Or.inr (Or.inr hx)
      · rintro (hx | rfl | hx)
        · exact Or.inl (Or.inl hx)
        · exact Or.inl (Or.inr rfl)
        · exact Or.inr hx

theorem mem_firstSeen (l : List String) (x : String) :
    x ∈ firstSeen l ↔ x ∈ l := by
  rw [firstSeen, mem_firstSeenAux]
  simp

theorem firstSeen_concat (l : List String) (x : String) :
    firstSeen (l ++ [x]) = if x ∈ l then firstSeen l else firstSeen l ++ [x] := by
  rw [firstSeen, List.foldl_append, List.foldl_cons, List.foldl_nil]
  show (if x ∈ firstSeen l then firstSeen l else firstSeen l ++ [x]) = _
  by_cases h : x ∈ firstSeen l
  · rw [if_pos h, if_pos ((mem_firstSeen l x).mp h)]
  · rw [if_neg h, if_neg (fun hx => h ((mem_firstSeen l x).mpr hx))]

theorem eventsFor_concat (evs : List StepEvent) (e : StepEvent) (id : String) :
    eventsFor (evs ++ [e]) id
      = eventsFor evs id ++ if e.id = id then [e] else [] := by
  rw [eventsFor, eventsFor, List.filter_append]
  congr 1
  by_cases h : e.id = id <;> simp [List.filter_cons, h]

theorem eventsFor_eq_nil_iff (evs : List StepEvent) (id : String) :
    eventsFor evs id = [] ↔ id ∉ evs.map (fun e => e.id) := by
  rw [eventsFor, List.filter_eq_nil_iff]
  constructor
  · intro hall hmem
    obtain ⟨x, hx, hxe⟩ := List.mem_map.mp hmem
    exact hall x hx (by simp [hxe])
  · intro hnot x hx hbeq
    exact hnot (List.mem_map.mpr ⟨x, hx, by simpa using hbeq⟩)

theorem lastStatus_concat (evs : List StepEvent) (e : StepEvent) (id : String) :
    lastStatus (evs ++ [e]) id
      = if e.id = id then some e.status else lastStatus evs id := by
  rw [lastStatus, eventsFor_concat]
  by_cases h : e.id = id
  · rw [if_pos h, if_pos h, List.getLast?_concat]
    rfl
  · rw [if_neg h, if_neg h, List.append_nil]
    rfl

theorem entryMessage_concat (evs : List StepEvent) (e : StepEvent) (id : String) :
    entryMessage (evs ++ [e]) id
      = if e.id = id then
          (match eventsFor evs id with
           | [] => e.message
           | _ :: _ => mergeMessage e.message (entryMessage evs id))
        else entryMessage evs id := by
  rw [entryMessage, eventsFor_concat]
  by_cases h : e.id = id
  · rw [if_pos h, if_pos h]
    rcases hev : eventsFor evs id with _ | ⟨e0, rest⟩
    · simp
    · simp [entryMessage, hev, List.foldl_append]
  · rw [if_neg h, if_neg h, List.append_nil, entryMessage]

/-! ### Characterization of one updateStep call -/

theorem updateStep_map_id (steps : List Step) (id st : String) (m : Option String) :
    (updateStep steps id st m).map (fun s => s.id)
      = if id ∈ steps.map (fun s => s.id) then steps.map (fun s => s.id)
        else steps.map (fun s => s.id) ++ [id] := by
  rw [updateStep]
  by_cases h : id ∈ steps.map (fun s => s.id)
  · rw [if_pos ((find?_id_isSome_iff steps id).mpr h), if_pos h, List.map_map]
    refine List.map_congr_left fun s _ => ?_
    by_cases hs : s.id = id <;> simp [hs]
  · rw [if_neg (fun hx => h ((find?_id_isSome_iff steps id).mp hx)), if_neg h,
      List.map_append]
    rfl

theorem mem_updateStep (steps : List Step) (id st : String) (m : Option String)
    (s : Step) (hs : s ∈ updateStep steps id st m) :
    (∃ s0 ∈ steps, s0.id ≠ id ∧ s = s0) ∨
    (∃ s0 ∈ steps, s0.id = id ∧
      s = { s0 with status := st, message := mergeMessage m s0.message }) ∨
    (id ∉ steps.map (fun t => t.id) ∧
      s = { id := id, label := stepLabel id, status := st, message := m }) := by
  rw [updateStep] at hs
  by_cases h : (steps.find? (fun s => s.id == id)).isSome
  · rw [if_pos h] at hs
    obtain ⟨s0, hs0, rfl⟩ := List.mem_map.mp hs
    by_cases hid : s0.id == id
    · exact Or.inr (Or.inl ⟨s0, hs0, by simpa using hid, by simp [hid]⟩)
    · exact Or.inl ⟨s0, hs0, by simpa using hid, by simp [hid]⟩
  · rw [if_neg h] at hs
    rcases List.mem_append.mp hs with hs' | hs'
    · have hnone : steps.find? (fun s => s.id == id) = none :=
        Option.not_isSome_iff_eq_none.mp h
      have := List.find?_eq_none.mp hnone s hs'
      exact Or.inl ⟨s, hs', by simpa using this, rfl⟩
    · refine Or.inr (Or.inr ⟨fun hx => h ((find?_id_isSome_iff steps id).mpr hx), ?_⟩)
      simpa using hs'

/-! ## Claim C2: the step list after a sequence of events -/

/-- The event sequence refuting the literal reading of claim C2: a repeat
for id analyze carrying the empty string as its message. -/
def evsC2 : List StepEvent :=
  [{ id := "analyze", status := "active", message := some "m1" },
   { id := "analyze", status := "complete", message := some "" }]

/-- The single displayed entry produced by the sequence evsC2. -/
def entryC2 : Step :=
  { id := "analyze", label := "Analyzing with AI", status := "complete", message := some "m1" }

/-- Counterexample to claim C2 as stated: the most recent message received
for analyze is the empty string, but the displayed entry still carries the
earlier message m1 - the entries do not always reflect the most recent
message received. -/
theorem runSteps_not_most_recent_message :
    lastMessageReceived evsC2 "analyze" = some "" ∧
    runSteps evsC2 = [entryC2] ∧
    ¬ ∀ s ∈ runSteps evsC2, s.message = lastMessageReceived evsC2 s.id := by
  refine ⟨rfl, by decide, fun hAll => ?_⟩
  have h := hAll entryC2 (by decide)
  exact absurd h (by decide)

/-- Claim C2, amended: for every sequence of step events processed by
updateStep within one session, the resulting list contains each id exactly
once in first-seen order, each entry carries the status of the most recent
event for its id, and its message is the message of the first event for its
id overridden by each later present non-empty message (events whose message
is absent or empty leave the stored message unchanged). -/
theorem runSteps_spec (evs : List StepEvent) :
    (runSteps evs).map (fun s => s.id) = firstSeen (evs.map (fun e => e.id)) ∧
    ∀ s ∈ runSteps evs, lastStatus evs s.id = some s.status ∧
      s.message = entryMessage evs s.id := by
  induction evs using List.reverseRecOn with
  | nil => exact ⟨rfl, by simp [runSteps]⟩
  | append_singleton l e ih =>
    obtain ⟨ihIds, ihMem⟩ := ih
    have hstep : runSteps (l ++ [e]) = updateStep (runSteps l) e.id e.status e.message := by
      rw [runSteps, List.foldl_append]
      rfl
    have hidsEq : (e.id ∈ (runSteps l).map (fun s => s.id)) ↔ e.id ∈ l.map (fun x => x.id) := by
      rw [ihIds, mem_firstSeen]
    constructor
    · rw [hstep, updateStep_map_id, ihIds]
      have hmap : (l ++ [e]).map (fun x => x.id) = l.map (fun x => x.id) ++ [e.id] := by
        simp
      rw [hmap, firstSeen_concat]
      by_cases h : e.id ∈ l.map (fun x => x.id)
      · rw [if_pos ((mem_firstSeen _ _).mpr h), if_pos h]
      · rw [if_neg (fun hx => h ((mem_firstSeen _ _).mp hx)), if_neg h]
    · intro s hs
      rw [hstep] at hs
      rcases mem_updateStep _ _ _ _ _ hs with
        ⟨s0, hs0, hne, hseq⟩ | ⟨s0, hs0, hid, hseq⟩ | ⟨hnotin, hseq⟩
      · subst hseq
        obtain ⟨h1, h2⟩ := ihMem s hs0
        rw [lastStatus_concat, entryMessage_concat,
          if_neg (fun hh => hne hh.symm), if_neg (fun hh => hne hh.symm)]
        exact ⟨h1, h2⟩
      · subst hseq
        obtain ⟨h1, h2⟩ := ihMem s0 hs0
        have hmem0 : s0.id ∈ (runSteps l).map (fun s => s.id) :=
          List.mem_map.mpr ⟨s0, hs0, rfl⟩
        have hmem : s0.id ∈ l.map (fun x => x.id) := by
          rw [ihIds] at hmem0
          exact (mem_firstSeen _ _).mp hmem0
        have hevne : eventsFor l s0.id ≠ [] := by
          rw [Ne, eventsFor_eq_nil_iff]
          simpa using hmem
        rcases hev : eventsFor l s0.id with _ | ⟨e0, rest⟩
        · exact absurd hev hevne
        · refine ⟨?_, ?_⟩
          · show lastStatus (l ++ [e]) s0.id = some e.status
            rw [lastStatus_concat, if_pos hid.symm]
          · show mergeMessage e.message s0.message = entryMessage (l ++ [e]) s0.id
            rw [entryMessage_concat, if_pos hid.symm, hev, h2]
      · subst hseq
        have hnot : e.id ∉ l.map (fun x => x.id) := fun hx =>
          hnotin (by rw [ihIds]; exact (mem_firstSeen _ _).mpr hx)
        have hev : eventsFor l e.id = [] := (eventsFor_eq_nil_iff _ _).mpr hnot
        refine ⟨?_, ?_⟩
        · show lastStatus (l ++ [e]) e.id = some e.status
          rw [lastStatus_concat, if_pos rfl]
        · show e.message = entryMessage (l ++ [e]) e.id
          rw [entryMessage_concat, if_pos rfl, hev]

/-- A concrete event sequence with an interleaved repeat, for the C2 witness. -/
def evsC2W : List StepEvent :=
  [{ id := "upload", status := "active", message := none },
   { id := "analyze", status := "active", message := some "thinking" },
   { id := "upload", status := "complete", message := some "done" }]

/-- The upload entry displayed after evsC2W. -/
def entryC2W : Step :=
  { id := "upload", label := "Reading image", status := "complete", message := some "done" }

/-- Witness for the amended claim C2: on evsC2W the ids appear once each in
first-seen order and the upload entry carries its latest status and its
latest non-empty message. -/
theorem runSteps_spec_witness :
    (runSteps evsC2W).map (fun s => s.id) = firstSeen (evsC2W.map (fun e => e.id)) ∧
    (lastStatus evsC2W entryC2W.id = some entryC2W.status ∧
      entryC2W.message = entryMessage evsC2W entryC2W.id) := by
  have h := runSteps_spec evsC2W
  exact ⟨h.1, h.2 entryC2W (by decide)⟩

/-! ## The SSE stream-consuming loop of handleUpload (upload/page.tsx lines 153-214) -/

/-- The error object of a failure result (interface ExtractionResponse). -/
structure ErrInfo where
  code : String
  message : String
deriving DecidableEq, Repr

/-- The extraction part of a success payload. -/
structure ExtractionInfo where
  success : Bool
  provider : String
  confidence : ℚ
  data : ExtractedData
deriving DecidableEq, Repr

/-- The validation part of a success payload. -/
structure ValidationInfo where
  is_valid : Bool
  issues : List String
deriving DecidableEq, Repr

/-- The database part of a success payload. -/
structure DatabaseInfo where
  saved : Bool
  order_id : Option ℤ
deriving DecidableEq, Repr

/-- The data field of a successful result event (interface
ExtractionResponse, lines 46-54). -/
structure SuccessData where
  extraction : ExtractionInfo
  validation : ValidationInfo
  database : DatabaseInfo
deriving DecidableEq, Repr

/-- The value held in the result state variable after a result is known. -/
inductive UploadResult
  | success (d : SuccessData)
  | failure (e : ErrInfo)
deriving DecidableEq, Repr

/-- One decoded frame of the SSE stream, classified the way the dispatch of
lines 186-206 classifies it.  JSON parsing is kept abstract: a data: line
whose payload fails JSON.parse is the malformed constructor; a line without
the data: marker is the noData constructor; a payload that is neither a
result nor carries a truthy step field is the other constructor. -/
inductive Frame
  | noData
  | malformed
  | resultSuccess (d : SuccessData)
  | resultFailure (e : ErrInfo)
  | stepEvent (e : StepEvent)
  | other
deriving DecidableEq, Repr

/-- The session-relevant component of the page state: the step list, the
result, the processingComplete flag and the editable copy of the extracted
data.  The loading flag, the modal switches and the file preview take part
in no claim and are omitted. -/
structure UploadState where
  steps : List Step
  result : Option UploadResult
  processingComplete : Bool
  editedData : Option ExtractedData
deriving DecidableEq, Repr

/-- The loop body of lines 186-207 for one decoded frame.  A malformed
payload is caught, logged and skipped (lines 203-205), leaving the state
unchanged.  A successful result installs the payload, a deep copy of the
extracted data (value-identical here) and the completion flag; a failure
result only replaces the result - the code sets processingComplete in the
success branch alone.  A step event with a truthy (non-empty) step id is
routed to updateStep.  There is no break: the loop keeps consuming frames
after a result. -/
def processFrame (st : UploadState) : Frame → UploadState
  | .noData => st
  | .malformed => st
  | .resultSuccess d =>
      { st with result := some (.success d),
                editedData := some d.extraction.data,
                processingComplete := true }
  | .resultFailure e => { st with result := some (.failure e) }
  | .stepEvent e =>
      if e.id = "" then st
      else { st with steps := updateStep st.steps e.id e.status e.message }
  | .other => st

/-- The read loop folded over all decoded frames of the stream, in order. -/
def processFrames (st : UploadState) (fs : List Frame) : UploadState :=
  fs.foldl processFrame st

/-- The outcome of one upload at the transport level: either the stream is
read to completion and delivers the given frames, or the fetch or a read
fails after a prefix of frames was delivered, raising into the catch of
lines 209-211. -/
inductive Transport
  | ok (fs : List Frame)
  | failAfter (fs : List Frame)
deriving DecidableEq, Repr

/-- The fixed failure result synthesized by the catch (line 210). -/
def networkErrorResult : UploadResult :=
  .failure { code := "ERR_NETWORK", message := "Failed to connect to server" }

/-- The body of handleUpload after the reset (lines 166-213): consume the
delivered frames; when the transport fails, the catch replaces the result
with the fixed ERR_NETWORK failure. -/
def processTransport (st : UploadState) : Transport → UploadState
  | .ok fs => processFrames st fs
  | .failAfter fs => { processFrames st fs with result := some networkErrorResult }

/-- handleUpload (lines 153-214): without a selected file nothing happens;
otherwise the session state is reset - result null, steps empty, completion
flag cleared (lines 156-159) - and the stream is consumed from that state. -/
def handleUpload (hasFile : Bool) (st : UploadState) (t : Transport) : UploadState :=
  if hasFile then
    processTransport { st with result := none, steps := [], processingComplete := false } t
  else st

/-- The page state before the first upload. -/
def initState : UploadState :=
  { steps := [], result := none, processingComplete := false, editedData := none }

/-! ## Claim C6: malformed frames are skipped without effect -/

/-- Claim C6: a frame whose payload is not valid JSON does not abort the
session: processing any stream with a malformed frame inserted between two
segments yields exactly the state obtained on the stream without it, so
every valid frame after the malformed one is processed with the same
effect.  (The console.error log of line 204 is a side effect outside the
state and is not modelled.) -/
theorem processFrames_malformed_skipped (st : UploadState) (pre post : List Frame) :
    processFrames st (pre ++ Frame.malformed :: post) = processFrames st (pre ++ post) := by
  rw [processFrames, processFrames, List.foldl_append, List.foldl_append, List.foldl_cons]
  rfl

/-! ## Claim C7: transport failure synthesizes ERR_NETWORK -/

/-- Claim C7: whenever the fetch or a stream read fails at the transport
level, handleUpload ends the session with a failure result whose code is
the fixed string ERR_NETWORK, so the session never ends without a result. -/
theorem handleUpload_transport_failure (st : UploadState) (fs : List Frame) :
    (handleUpload true st (Transport.failAfter fs)).result = some networkErrorResult ∧
    networkErrorResult
      = UploadResult.failure { code := "ERR_NETWORK", message := "Failed to connect to server" } :=
  ⟨rfl, rfl⟩

/-! ## Claim C8: a new upload discards the previous session -/

/-- Claim C8: starting a new upload with a file selected discards the prior
session before any frame is processed: whatever the previous steps, result
and completion flag were - including a successfully completed session - the
stream is consumed starting from the state with empty step list, null
result and cleared completion flag. -/
theorem handleUpload_resets_session (st : UploadState) (t : Transport) :
    handleUpload true st t
      = processTransport { steps := [], result := none, processingComplete := false,
                           editedData := st.editedData } t := rfl

/-! ## Claim C3: frames after the first result event -/

/-- The effect of a single frame on the result state variable alone. -/
def resultStep (r : Option UploadResult) : Frame → Option UploadResult
  | .resultSuccess d => some (.success d)
  | .resultFailure e => some (.failure e)
  | _ => r

theorem processFrame_result (st : UploadState) (f : Frame) :
    (processFrame st f).result = resultStep st.result f := by
  cases f with
  | noData => rfl
  | malformed => rfl
  | resultSuccess d => rfl
  | resultFailure e => rfl
  | stepEvent e => by_cases h : e.id = "" <;> simp [processFrame, resultStep, h]
  | other => rfl

theorem processFrames_result (st : UploadState) (fs : List Frame) :
    (processFrames st fs).result = fs.foldl resultStep st.result := by
  induction fs generalizing st with
  | nil => rfl
  | cons f rest ih =>
    rw [processFrames, List.foldl_cons, List.foldl_cons]
    rw [show List.foldl processFrame (processFrame st f) rest
        = processFrames (processFrame st f) rest from rfl]
    rw [ih, processFrame_result]

/-- A sample success payload for concrete runs of the stream loop. -/
def sampleSuccess : SuccessData :=
  { extraction := { success := true, provider := "openai", confidence := 1,
                    data := sampleInvoiceC1 }
    validation := { is_valid := true, issues := [] }
    database := { saved := false, order_id := none } }

/-- The same payload attributed to the fallback provider. -/
def sampleSuccess2 : SuccessData :=
  { sampleSuccess with
      extraction := { sampleSuccess.extraction with provider := "gemini" } }

/-- A step event arriving after a result frame. -/
def saveEvent : StepEvent :=
  { id := "save", status := "active", message := none }

/-- Counterexample to claim C3 as stated: the loop has no break after a
result frame.  With two result frames the session exposes the second
payload - the later result replaces the one already honored - and a step
frame arriving after a result frame still changes the step list. -/
theorem frames_after_result_are_processed :
    (processFrames initState
        [Frame.resultSuccess sampleSuccess, Frame.resultSuccess sampleSuccess2]).result
      = some (UploadResult.success sampleSuccess2) ∧
    sampleSuccess2 ≠ sampleSuccess ∧
    (processFrames initState
        [Frame.resultSuccess sampleSuccess, Frame.stepEvent saveEvent]).steps
      ≠ (processFrames initState [Frame.resultSuccess sampleSuccess]).steps := by
  refine ⟨rfl, by decide, by decide⟩

/-- Claim C3, amended: the client keeps processing every frame of the
stream after a result event.  The exposed result is the payload of the last
result frame received (a later result event replaces an earlier one, and
the result survives any number of following step events), and a step event
appended after any frames - including after a result - still updates the
step list.  That exactly one result is honored holds only through the
server contract of emitting exactly one result event, last. -/
theorem handleUpload_keeps_processing_after_result (st : UploadState) (fs : List Frame) :
    (processFrames st fs).result = fs.foldl resultStep st.result ∧
    (∀ e : StepEvent, e.id ≠ "" →
      processFrames st (fs ++ [Frame.stepEvent e])
        = { processFrames st fs with
            steps := updateStep (processFrames st fs).steps e.id e.status e.message }) := by
  refine ⟨processFrames_result st fs, fun e he => ?_⟩
  rw [processFrames, List.foldl_append, List.foldl_cons, List.foldl_nil]
  show processFrame (processFrames st fs) (Frame.stepEvent e) = _
  simp [processFrame, he]

/-- Witness for the amended claim C3: after a result frame, a save step
event is still folded into the step list. -/
theorem handleUpload_keeps_processing_after_result_witness :
    processFrames initState [Frame.resultSuccess sampleSuccess, Frame.stepEvent saveEvent]
      = { processFrames initState [Frame.resultSuccess sampleSuccess] with
          steps := updateStep
            (processFrames initState [Frame.resultSuccess sampleSuccess]).steps
            saveEvent.id saveEvent.status saveEvent.message } := by
  have h := handleUpload_keeps_processing_after_result initState
    [Frame.resultSuccess sampleSuccess]
  exact h.2 saveEvent (by decide)

/-! ## Claim C10: the invoices page number (invoices/page.tsx lines 62, 364-384)

The page state starts at 1; the Previous button runs
setPage(p => Math.max(1, p - 1)) and the Next button runs
setPage(p => p + 1).  JavaScript numbers are modelled as integers here,
since only 1, subtraction and addition occur. -/

/-- The two pagination buttons. -/
inductive PageAction
  | previous
  | next
deriving DecidableEq, Repr

/-- The state update performed by one button click. -/
def pageStep (p : ℤ) : PageAction → ℤ
  | .previous => max 1 (p - 1)
  | .next => p + 1

/-- The initial page state of useState(1). -/
def initialPage : ℤ := 1

/-- The page number after a sequence of button clicks. -/
def runPages (acts : List PageAction) : ℤ :=
  acts.foldl pageStep initialPage

theorem pageStep_ge_one (p : ℤ) (a : PageAction) (hp : 1 ≤ p) : 1 ≤ pageStep p a := by
  cases a with
  | previous => exact le_max_left 1 (p - 1)
  | next =>
    show (1 : ℤ) ≤ p + 1
    omega

theorem foldl_pageStep_ge_one (acts : List PageAction) (p : ℤ) (hp : 1 ≤ p) :
    1 ≤ acts.foldl pageStep p := by
  induction acts generalizing p with
  | nil => exact hp
  | cons a rest ih => exact ih _ (pageStep_ge_one p a hp)

/-- Claim C10: the page number is initialized to 1, Previous sets it to
max(1, page - 1), Next sets it to page + 1, and therefore no sequence of
Previous and Next clicks can drive the page number below 1. -/
theorem invoices_page_ge_one (acts : List PageAction) :
    initialPage = 1 ∧
    (∀ p : ℤ, pageStep p PageAction.previous = max 1 (p - 1)) ∧
    (∀ p : ℤ, pageStep p PageAction.next = p + 1) ∧
    1 ≤ runPages acts :=
  ⟨rfl, fun _ => rfl, fun _ => rfl, foldl_pageStep_ge_one acts initialPage le_rfl⟩

/-! ## Object-store model of handleEditField (claim C4)

applyEdit above describes the contents of the snapshot the call produces.
Claim C4 is about aliasing: line 227 copies only the top level of the
snapshot (const updated = ...spread), so every nested object - the header,
the line_items array, each line item, the totals - is shared between the
copy and the caller snapshot, and the assignment of line 232 writes
through that shared object.  The model below makes the sharing explicit:
objects live in a store addressed by references, values are primitives or
references, and handleEditField is the top-level copy, the path walk of
lines 228-232 and the conditional recomputation, all on the store. -/

/-- A JavaScript value: string, number, null or an object reference. -/
inductive JVal
  | jstr (s : String)
  | jnum (q : ℚ)
  | jnull
  | jref (r : ℕ)
deriving DecidableEq, Repr

/-- A JavaScript object: a field map or an array. -/
inductive JObj
  | obj (fields : List (String × JVal))
  | arr (elems : List JVal)
deriving DecidableEq, Repr

/-- The object store; reference r denotes the object at index r. -/
abbrev JStore := List JObj

/-- Splitting a character list on the dot separator, the effect of
field.split on the path string. -/
def splitCharsOnDot : List Char → List (List Char)
  | [] => [[]]
  | c :: cs =>
      let rest := splitCharsOnDot cs
      if c = '.' then [] :: rest
      else
        match rest with
        | [] => [[c]]
        | w :: ws => (c :: w) :: ws

/-- field.split of line 228 for the dot separator. -/
def splitDots (s : String) : List String :=
  (splitCharsOnDot s.data).map (fun cs => String.mk cs)

/-- Character-list version of startsWith, for the substring search. -/
def leadsWith : List Char → List Char → Bool
  | [], _ => true
  | _ :: _, [] => false
  | a :: as, b :: bs => a == b && leadsWith as bs

/-- Whether the needle occurs inside the haystack. -/
def containsSeq (needle : List Char) : List Char → Bool
  | [] => leadsWith needle []
  | c :: cs => leadsWith needle (c :: cs) || containsSeq needle cs

/-- The guard field.includes of line 234. -/
def includesLineItems (field : String) : Bool :=
  containsSeq "line_items".data field.data

/-- parseInt of line 235 for the index component of the path; the UI only
produces pure digit indices. -/
def parseNatDigits (cs : List Char) : Option ℕ :=
  match cs with
  | [] => none
  | _ => cs.foldl (fun acc c => acc.bind (fun n =>
      if c.isDigit then some (n * 10 + (c.toNat - 48)) else none)) (some 0)

/-- Property read obj[k]: on a field map the first binding wins; on an
array a numeric key indexes the elements. -/
def JObj.get : JObj → String → Option JVal
  | .obj fl, k => (fl.find? (fun p => p.1 == k)).map (fun p => p.2)
  | .arr es, k => (parseNatDigits k.data).bind (fun i => es.get? i)

/-- Overwrite a binding in a field map, or append it when absent. -/
def setPairs (fl : List (String × JVal)) (k : String) (v : JVal) :
    List (String × JVal) :=
  if fl.any (fun p => p.1 == k) then
    fl.map (fun p => if p.1 == k then (k, v) else p)
  else fl ++ [(k, v)]

/-- Property write obj[k] = v.  On an array only in-range numeric keys are
written; the paths used by the UI only write existing fields. -/
def JObj.set : JObj → String → JVal → JObj
  | .obj fl, k, v => .obj (setPairs fl k v)
  | .arr es, k, v =>
      match parseNatDigits k.data with
      | some i => .arr (es.set i v)
      | none => .arr es

/-- Read field k of the object that reference r denotes. -/
def getField (σ : JStore) (r : ℕ) (k : String) : Option JVal :=
  (σ.get? r).bind (fun o => o.get k)

/-- Write field k of the object that reference r denotes. -/
def setField (σ : JStore) (r : ℕ) (k : String) (v : JVal) : JStore :=
  match σ.get? r with
  | some o => σ.set r (o.set k v)
  | none => σ

/-- Allocate a fresh object; the new reference is the old store length. -/
def allocObj (σ : JStore) (o : JObj) : JStore × ℕ := (σ ++ [o], σ.length)

/-- The walk of line 231: follow the path through object references,
stopping before the last key.  A missing link would throw in JavaScript;
the UI never produces one. -/
def walkPath (σ : JStore) : ℕ → List String → Option ℕ
  | r, [] => some r
  | r, k :: ks =>
      match getField σ r k with
      | some (JVal.jref r2) => walkPath σ r2 ks
      | _ => none

/-- Read a whole dotted path, for stating what a snapshot shows. -/
def readPath (σ : JStore) : ℕ → List String → Option JVal
  | _, [] => none
  | r, [k] => getField σ r k
  | r, k :: ks =>
      match getField σ r k with
      | some (JVal.jref r2) => readPath σ r2 ks
      | _ => none

/-- Read a numeric field, as the arithmetic of lines 237-240 does.  On the
well-formed stores of the claims these fields hold numbers; anything else
would be NaN arithmetic in JavaScript and is mapped to 0 here. -/
def readNumField (σ : JStore) (r : ℕ) (k : String) : ℚ :=
  match getField σ r k with
  | some (JVal.jnum q) => q
  | _ => 0

/-- The recomputation block of lines 234-241 on the store: parse the index
from the second path component, set the total of that line item object to
quantity * unit_price, then rebuild subtotal, tax_amount and total of the
totals object in order, every write landing in the store before the next
read. -/
def recomputeStore (σ : JStore) (root : ℕ) (keys : List String) : JStore :=
  match (keys.get? 1).bind (fun k => parseNatDigits k.data) with
  | none => σ
  | some idx =>
      match getField σ root "line_items" with
      | some (JVal.jref itemsRef) =>
          match (σ.get? itemsRef).bind (fun o =>
              match o with
              | JObj.arr es => es.get? idx
              | _ => none) with
          | some (JVal.jref itemRef) =>
              let q := readNumField σ itemRef "quantity"
              let p := readNumField σ itemRef "unit_price"
              let σ1 := setField σ itemRef "total" (JVal.jnum (q * p))
              let subtotal :=
                match σ1.get? itemsRef with
                | some (JObj.arr es) =>
                    es.foldl (fun sum li =>
                      match li with
                      | JVal.jref r2 => sum + readNumField σ1 r2 "total"
                      | _ => sum) 0
                | _ => 0
              match getField σ1 root "totals" with
              | some (JVal.jref totalsRef) =>
                  let σ2 := setField σ1 totalsRef "subtotal" (JVal.jnum subtotal)
                  let tax := readNumField σ2 totalsRef "subtotal"
                    * (readNumField σ2 totalsRef "tax_rate" / 100)
                  let σ3 := setField σ2 totalsRef "tax_amount" (JVal.jnum tax)
                  let tot := readNumField σ3 totalsRef "subtotal"
                    + readNumField σ3 totalsRef "tax_amount"
                    + readNumField σ3 totalsRef "shipping"
                  setField σ3 totalsRef "total" (JVal.jnum tot)
              | _ => σ1
          | _ => σ
      | _ => σ

/-- handleEditField (lines 225-243) on the object store: copy the
top-level object only, walk the dotted path to the owning nested object,
assign the last key there, and run the recomputation when the path
mentions line_items.  Returns the new store and the reference of the new
top-level snapshot object. -/
def handleEditFieldStore (σ : JStore) (root : ℕ) (field : String) (v : JVal) :
    JStore × ℕ :=
  match σ.get? root with
  | none => (σ, root)
  | some rootObj =>
      let a := allocObj σ rootObj
      let keys := splitDots field
      match walkPath a.1 a.2 keys.dropLast, keys.getLast? with
      | some target, some lastKey =>
          let σ2 := setField a.1 target lastKey v
          let σ3 := if includesLineItems field then recomputeStore σ2 a.2 keys else σ2
          (σ3, a.2)
      | _, _ => (a.1, a.2)

/-! ### Lemmas about field writes -/

theorem find?_append_pair (fl : List (String × JVal)) (k : String) (v : JVal)
    (h : fl.any (fun p => p.1 == k) = false) :
    (fl ++ [(k, v)]).find? (fun p => p.1 == k) = some (k, v) := by
  induction fl with
  | nil => rw [List.nil_append, List.find?_cons_of_pos _ (by simp)]
  | cons p t ih =>
    simp only [List.any_cons, Bool.or_eq_false_iff] at h
    rw [List.cons_append, List.find?_cons_of_neg _ (by simp [h.1]), ih h.2]

theorem find?_overwrite (fl : List (String × JVal)) (k : String) (v : JVal)
    (h : fl.any (fun p => p.1 == k) = true) :
    ((fl.map (fun p => if p.1 == k then (k, v) else p)).find? (fun p => p.1 == k))
      = some (k, v) := by
  induction fl with
  | nil => simp at h
  | cons p t ih =>
    by_cases hp : p.1 = k
    · rw [List.map_cons, if_pos (by simp [hp]), List.find?_cons_of_pos _ (by simp)]
    · rw [List.map_cons, if_neg (by simp [hp]), List.find?_cons_of_neg _ (by simp [hp])]
      apply ih
      simpa [hp] using h

theorem JObj.get_set_self (fl : List (String × JVal)) (k : String) (v : JVal) :
    ((JObj.obj fl).set k v).get k = some v := by
  rw [JObj.set, JObj.get, setPairs]
  by_cases h : fl.any (fun p => p.1 == k)
  · rw [if_pos h, find?_overwrite fl k v h, Option.map_some']
  · rw [if_neg h, find?_append_pair fl k v (Bool.eq_false_iff.mpr h), Option.map_some']

/-! ## Claim C4: the caller snapshot is mutated through shared objects -/

/-- A concrete snapshot object graph: reference 0 is the snapshot, 1 the
header, 2 the line_items array, 3 its single line item, 4 the totals. -/
def storeC4 : JStore :=
  [JObj.obj [("header", JVal.jref 1), ("line_items", JVal.jref 2), ("totals", JVal.jref 4)],
   JObj.obj [("invoice_number", JVal.jstr "INV-1"), ("date", JVal.jstr "2024-01-01"),
             ("customer_id", JVal.jnull), ("company_name", JVal.jstr "ACME")],
   JObj.arr [JVal.jref 3],
   JObj.obj [("item_number", JVal.jstr "1"), ("description", JVal.jstr "widget"),
             ("quantity", JVal.jnum 1), ("unit_price", JVal.jnum 10), ("total", JVal.jnum 10)],
   JObj.obj [("subtotal", JVal.jnum 10), ("tax_rate", JVal.jnum 8), ("tax_amount", JVal.jnum 1),
             ("shipping", JVal.jnum 5), ("total", JVal.jnum 16)]]

/-- Counterexample to claim C4: handleEditField mutates the caller
snapshot through the shared header object.  Before the call the original
snapshot (reference 0) shows invoice number INV-1; after the edit of
header.invoice_number to INV-2 the same reference 0 shows INV-2, so the
edit is visible through the original snapshot and not only in the newly
produced one. -/
theorem handleEditField_mutates_original :
    readPath storeC4 0 ["header", "invoice_number"] = some (JVal.jstr "INV-1") ∧
    readPath (handleEditFieldStore storeC4 0 "header.invoice_number" (JVal.jstr "INV-2")).1
        0 ["header", "invoice_number"]
      = some (JVal.jstr "INV-2") := by
  exact ⟨by decide, by decide⟩

theorem readPath_pair (σ : JStore) (r r2 : ℕ) (k1 k2 : String)
    (hg : getField σ r k1 = some (JVal.jref r2)) :
    readPath σ r [k1, k2] = getField σ r2 k2 := by
  show (match getField σ r k1 with
        | some (JVal.jref x) => readPath σ x [k2]
        | _ => none) = getField σ r2 k2
  rw [hg]
  rfl

/-- Header-path case of the sharing behaviour: a header field edit returns
a fresh top-level reference, leaves the original top-level object itself
untouched, and writes the shared header object, so the new value is
readable through both the original and the new snapshot. -/
theorem handleEditFieldStore_header_edit (σ : JStore) (r h : ℕ)
    (fs hfs : List (String × JVal)) (f : String) (v : JVal)
    (hr : σ.get? r = some (JObj.obj fs))
    (hh : σ.get? h = some (JObj.obj hfs))
    (hfield : (JObj.obj fs).get "header" = some (JVal.jref h))
    (hne : h ≠ r)
    (hsplit : splitDots ("header." ++ f) = ["header", f])
    (hnoli : includesLineItems ("header." ++ f) = false) :
    (handleEditFieldStore σ r ("header." ++ f) v).2 = σ.length ∧
    (handleEditFieldStore σ r ("header." ++ f) v).1.get? r = some (JObj.obj fs) ∧
    readPath (handleEditFieldStore σ r ("header." ++ f) v).1 r ["header", f] = some v ∧
    readPath (handleEditFieldStore σ r ("header." ++ f) v).1
      (handleEditFieldStore σ r ("header." ++ f) v).2 ["header", f] = some v := by
  obtain ⟨hlr, -⟩ := List.get?_eq_some.mp hr
  obtain ⟨hlh, -⟩ := List.get?_eq_some.mp hh
  have hga : (σ ++ [JObj.obj fs]).get? σ.length = some (JObj.obj fs) :=
    List.get?_concat_length σ (JObj.obj fs)
  have hgh : (σ ++ [JObj.obj fs]).get? h = some (JObj.obj hfs) := by
    rw [List.get?_append hlh]
    exact hh
  have hgr : (σ ++ [JObj.obj fs]).get? r = some (JObj.obj fs) := by
    rw [List.get?_append hlr]
    exact hr
  have hgf : getField (σ ++ [JObj.obj fs]) σ.length "header" = some (JVal.jref h) := by
    rw [getField, hga, Option.some_bind, hfield]
  have hw : walkPath (σ ++ [JObj.obj fs]) σ.length ["header"] = some h := by
    rw [walkPath, hgf]
    exact rfl
  have hset : setField (σ ++ [JObj.obj fs]) h f v
      = (σ ++ [JObj.obj fs]).set h ((JObj.obj hfs).set f v) := by
    rw [setField, hgh]
  have hstore : handleEditFieldStore σ r ("header." ++ f) v
      = ((σ ++ [JObj.obj fs]).set h ((JObj.obj hfs).set f v), σ.length) := by
    rw [handleEditFieldStore, hr]
    have hdl : (["header", f] : List String).dropLast = ["header"] := rfl
    have hgl : (["header", f] : List String).getLast? = some f := rfl
    simp only [allocObj, hsplit, hdl, hgl, hw, hnoli,
      Bool.false_eq_true, if_false, hset]
  rw [hstore]
  have hsr : ((σ ++ [JObj.obj fs]).set h ((JObj.obj hfs).set f v)).get? r
      = some (JObj.obj fs) := by
    rw [List.get?_set_ne _ _ hne]
    exact hgr
  have hsn : ((σ ++ [JObj.obj fs]).set h ((JObj.obj hfs).set f v)).get? σ.length
      = some (JObj.obj fs) := by
    rw [List.get?_set_ne _ _ (by omega)]
    exact hga
  have hsh : ((σ ++ [JObj.obj fs]).set h ((JObj.obj hfs).set f v)).get? h
      = some ((JObj.obj hfs).set f v) := by
    apply List.get?_set_eq_of_lt
    rw [List.length_append]
    omega
  refine ⟨rfl, hsr, ?_, ?_⟩
  · have hgf2 : getField ((σ ++ [JObj.obj fs]).set h ((JObj.obj hfs).set f v)) r "header"
        = some (JVal.jref h) := by
      rw [getField, hsr, Option.some_bind, hfield]
    rw [readPath_pair _ _ _ _ _ hgf2, getField, hsh, Option.some_bind, JObj.get_set_self]
  · have hgf3 : getField ((σ ++ [JObj.obj fs]).set h ((JObj.obj hfs).set f v)) σ.length "header"
        = some (JVal.jref h) := by
      rw [getField, hsn, Option.some_bind, hfield]
    rw [readPath_pair _ _ _ _ _ hgf3, getField, hsh, Option.some_bind, JObj.get_set_self]


/-! ### Claim C4, line-item paths

The header theorem above covers the header.<f> paths.  The remaining UI
paths are line_items.<i>.<f>; for those the write lands in the shared line
item object and the recomputation writes land in the shared line item and
totals objects, so they too are visible through the caller snapshot.  The
lemmas below track field reads across writes and across the two snapshot
roots. -/

theorem find?_map_overwrite_ne (fl : List (String × JVal)) (k k2 : String) (v : JVal)
    (h : k2 ≠ k) :
    (fl.map (fun p => if p.1 == k then (k, v) else p)).find? (fun p => p.1 == k2)
      = fl.find? (fun p => p.1 == k2) := by
  induction fl with
  | nil => rfl
  | cons p t ih =>
    by_cases hp : p.1 = k
    · rw [List.map_cons, if_pos (by simp [hp]),
        List.find?_cons_of_neg _ (by simp only [beq_iff_eq]; exact fun hc => h hc.symm),
        List.find?_cons_of_neg _ (by simp only [beq_iff_eq, hp]; exact fun hc => h hc.symm),
        ih]
    · rw [List.map_cons, if_neg (by simp [hp])]
      by_cases hp2 : p.1 = k2
      · rw [List.find?_cons_of_pos _ (by simp [hp2]), List.find?_cons_of_pos _ (by simp [hp2])]
      · rw [List.find?_cons_of_neg _ (by simp [hp2]), List.find?_cons_of_neg _ (by simp [hp2]),
          ih]

theorem JObj.get_set_ne (fl : List (String × JVal)) (k k2 : String) (v : JVal)
    (h : k2 ≠ k) :
    ((JObj.obj fl).set k v).get k2 = (JObj.obj fl).get k2 := by
  simp only [JObj.set, JObj.get, setPairs]
  by_cases ha : fl.any (fun p => p.1 == k)
  · rw [if_pos ha, find?_map_overwrite_ne fl k k2 v h]
  · rw [if_neg ha, List.find?_append]
    have hnone : ([(k, v)] : List (String × JVal)).find? (fun p => p.1 == k2) = none := by
      rw [List.find?_cons_of_neg _ (by simp only [beq_iff_eq]; exact fun hc => h hc.symm)]
      rfl
    rw [hnone, Option.or_none]

theorem readPath_step (σ : JStore) (r r2 : ℕ) (k k2 : String) (ks : List String)
    (hg : getField σ r k = some (JVal.jref r2)) :
    readPath σ r (k :: k2 :: ks) = readPath σ r2 (k2 :: ks) := by
  show (match getField σ r k with
        | some (JVal.jref x) => readPath σ x (k2 :: ks)
        | _ => none) = readPath σ r2 (k2 :: ks)
  rw [hg]

theorem readPath_congr (σ : JStore) (r1 r2 : ℕ) (o : JObj)
    (h1 : σ.get? r1 = some o) (h2 : σ.get? r2 = some o) :
    ∀ p : List String, p ≠ [] → readPath σ r1 p = readPath σ r2 p := by
  intro p hp
  cases p with
  | nil => exact absurd rfl hp
  | cons k ks =>
    cases ks with
    | nil =>
      show getField σ r1 k = getField σ r2 k
      rw [getField, getField, h1, h2]
    | cons k2 ks2 =>
      show (match getField σ r1 k with
            | some (JVal.jref x) => readPath σ x (k2 :: ks2)
            | _ => none)
          = (match getField σ r2 k with
            | some (JVal.jref x) => readPath σ x (k2 :: ks2)
            | _ => none)
      rw [getField, getField, h1, h2]

theorem handleEditFieldStore_item_edit (σ : JStore) (r itemsRef itemRef totalsRef : ℕ)
    (fs ifs tfs : List (String × JVal)) (es : List JVal) (idx : ℕ)
    (idxStr f field : String) (v : JVal)
    (hr : σ.get? r = some (JObj.obj fs))
    (hitems : σ.get? itemsRef = some (JObj.arr es))
    (hitem : σ.get? itemRef = some (JObj.obj ifs))
    (htotals : σ.get? totalsRef = some (JObj.obj tfs))
    (hfli : (JObj.obj fs).get "line_items" = some (JVal.jref itemsRef))
    (hftot : (JObj.obj fs).get "totals" = some (JVal.jref totalsRef))
    (hidx : parseNatDigits idxStr.data = some idx)
    (helem : es.get? idx = some (JVal.jref itemRef))
    (hd1 : itemRef ≠ r) (hd2 : totalsRef ≠ r)
    (hd3 : itemRef ≠ itemsRef) (hd4 : totalsRef ≠ itemsRef) (hd5 : totalsRef ≠ itemRef)
    (hsplit : splitDots field = ["line_items", idxStr, f])
    (hinc : includesLineItems field = true)
    (hfT : f ≠ "total") :
    (handleEditFieldStore σ r field v).2 = σ.length ∧
    (handleEditFieldStore σ r field v).1.get? r = some (JObj.obj fs) ∧
    readPath (handleEditFieldStore σ r field v).1 r ["line_items", idxStr, f] = some v ∧
    (∀ p : List String, p ≠ [] →
      readPath (handleEditFieldStore σ r field v).1 r p
        = readPath (handleEditFieldStore σ r field v).1 (handleEditFieldStore σ r field v).2 p) := by
  obtain ⟨hlr, -⟩ := List.get?_eq_some.mp hr
  obtain ⟨hlItems, -⟩ := List.get?_eq_some.mp hitems
  obtain ⟨hlItem, -⟩ := List.get?_eq_some.mp hitem
  obtain ⟨hlTot, -⟩ := List.get?_eq_some.mp htotals
  have hga : (σ ++ [JObj.obj fs]).get? σ.length = some (JObj.obj fs) :=
    List.get?_concat_length σ (JObj.obj fs)
  have h0r : (σ ++ [JObj.obj fs]).get? r = some (JObj.obj fs) := by
    rw [List.get?_append hlr]
    exact hr
  have h0items : (σ ++ [JObj.obj fs]).get? itemsRef = some (JObj.arr es) := by
    rw [List.get?_append hlItems]
    exact hitems
  have h0item : (σ ++ [JObj.obj fs]).get? itemRef = some (JObj.obj ifs) := by
    rw [List.get?_append hlItem]
    exact hitem
  have h0tot : (σ ++ [JObj.obj fs]).get? totalsRef = some (JObj.obj tfs) := by
    rw [List.get?_append hlTot]
    exact htotals
  have hgf1 : getField (σ ++ [JObj.obj fs]) σ.length "line_items"
      = some (JVal.jref itemsRef) := by
    rw [getField, hga, Option.some_bind, hfli]
  have harr : (JObj.arr es).get idxStr = some (JVal.jref itemRef) := by
    show (parseNatDigits idxStr.data).bind (fun i => es.get? i) = some (JVal.jref itemRef)
    rw [hidx, Option.some_bind, helem]
  have hgf2 : getField (σ ++ [JObj.obj fs]) itemsRef idxStr = some (JVal.jref itemRef) := by
    rw [getField, h0items, Option.some_bind, harr]
  have hw : walkPath (σ ++ [JObj.obj fs]) σ.length ["line_items", idxStr] = some itemRef := by
    rw [walkPath, hgf1]
    show walkPath (σ ++ [JObj.obj fs]) itemsRef [idxStr] = some itemRef
    rw [walkPath, hgf2]
    exact rfl
  have hset1 : setField (σ ++ [JObj.obj fs]) itemRef f v
      = (σ ++ [JObj.obj fs]).set itemRef ((JObj.obj ifs).set f v) := by
    rw [setField, h0item]
  have hlA : itemRef < (σ ++ [JObj.obj fs]).length := by
    rw [List.length_append]
    omega
  have hA1N : ((σ ++ [JObj.obj fs]).set itemRef ((JObj.obj ifs).set f v)).get? σ.length
      = some (JObj.obj fs) := by
    rw [List.get?_set_ne _ _ (show itemRef ≠ σ.length by omega)]
    exact hga
  have hA1items : ((σ ++ [JObj.obj fs]).set itemRef ((JObj.obj ifs).set f v)).get? itemsRef
      = some (JObj.arr es) := by
    rw [List.get?_set_ne _ _ hd3]
    exact h0items
  have hA1item : ((σ ++ [JObj.obj fs]).set itemRef ((JObj.obj ifs).set f v)).get? itemRef
      = some ((JObj.obj ifs).set f v) :=
    List.get?_set_eq_of_lt _ hlA
  have hgfA1 : getField ((σ ++ [JObj.obj fs]).set itemRef ((JObj.obj ifs).set f v))
      σ.length "line_items" = some (JVal.jref itemsRef) := by
    rw [getField, hA1N, Option.some_bind, hfli]
  have hsetTot : ∀ w : JVal,
      setField ((σ ++ [JObj.obj fs]).set itemRef ((JObj.obj ifs).set f v)) itemRef "total" w
        = (σ ++ [JObj.obj fs]).set itemRef (((JObj.obj ifs).set f v).set "total" w) := by
    intro w
    simp only [setField, hA1item, List.set_set]
  have hBN : ∀ w : JVal,
      ((σ ++ [JObj.obj fs]).set itemRef (((JObj.obj ifs).set f v).set "total" w)).get? σ.length
        = some (JObj.obj fs) := by
    intro w
    rw [List.get?_set_ne _ _ (show itemRef ≠ σ.length by omega)]
    exact hga
  have hBitems : ∀ w : JVal,
      ((σ ++ [JObj.obj fs]).set itemRef (((JObj.obj ifs).set f v).set "total" w)).get? itemsRef
        = some (JObj.arr es) := by
    intro w
    rw [List.get?_set_ne _ _ hd3]
    exact h0items
  have hBtot : ∀ w : JVal,
      ((σ ++ [JObj.obj fs]).set itemRef (((JObj.obj ifs).set f v).set "total" w)).get? totalsRef
        = some (JObj.obj tfs) := by
    intro w
    rw [List.get?_set_ne _ _ hd5.symm]
    exact h0tot
  have hgfBtot : ∀ w : JVal,
      getField ((σ ++ [JObj.obj fs]).set itemRef (((JObj.obj ifs).set f v).set "total" w))
        σ.length "totals" = some (JVal.jref totalsRef) := by
    intro w
    rw [getField, hBN, Option.some_bind, hftot]
  have hsetSub : ∀ w w2 : JVal,
      setField ((σ ++ [JObj.obj fs]).set itemRef (((JObj.obj ifs).set f v).set "total" w))
        totalsRef "subtotal" w2
        = ((σ ++ [JObj.obj fs]).set itemRef (((JObj.obj ifs).set f v).set "total" w)).set
            totalsRef ((JObj.obj tfs).set "subtotal" w2) := by
    intro w w2
    rw [setField, hBtot]
  have hlT : ∀ w : JVal, totalsRef <
      ((σ ++ [JObj.obj fs]).set itemRef (((JObj.obj ifs).set f v).set "total" w)).length := by
    intro w
    rw [List.length_set, List.length_append]
    omega
  have hCtot : ∀ w w2 : JVal,
      (((σ ++ [JObj.obj fs]).set itemRef (((JObj.obj ifs).set f v).set "total" w)).set
          totalsRef ((JObj.obj tfs).set "subtotal" w2)).get? totalsRef
        = some ((JObj.obj tfs).set "subtotal" w2) := by
    intro w w2
    exact List.get?_set_eq_of_lt _ (hlT w)
  have hsetTax : ∀ w w2 w3 : JVal,
      setField (((σ ++ [JObj.obj fs]).set itemRef (((JObj.obj ifs).set f v).set "total" w)).set
          totalsRef ((JObj.obj tfs).set "subtotal" w2)) totalsRef "tax_amount" w3
        = ((σ ++ [JObj.obj fs]).set itemRef (((JObj.obj ifs).set f v).set "total" w)).set
            totalsRef (((JObj.obj tfs).set "subtotal" w2).set "tax_amount" w3) := by
    intro w w2 w3
    simp only [setField, hCtot, List.set_set]
  have hDtot : ∀ w w2 w3 : JVal,
      (((σ ++ [JObj.obj fs]).set itemRef (((JObj.obj ifs).set f v).set "total" w)).set
          totalsRef (((JObj.obj tfs).set "subtotal" w2).set "tax_amount" w3)).get? totalsRef
        = some (((JObj.obj tfs).set "subtotal" w2).set "tax_amount" w3) := by
    intro w w2 w3
    exact List.get?_set_eq_of_lt _ (hlT w)
  have hsetTot2 : ∀ w w2 w3 w4 : JVal,
      setField (((σ ++ [JObj.obj fs]).set itemRef (((JObj.obj ifs).set f v).set "total" w)).set
          totalsRef (((JObj.obj tfs).set "subtotal" w2).set "tax_amount" w3))
          totalsRef "total" w4
        = ((σ ++ [JObj.obj fs]).set itemRef (((JObj.obj ifs).set f v).set "total" w)).set
            totalsRef ((((JObj.obj tfs).set "subtotal" w2).set "tax_amount" w3).set
              "total" w4) := by
    intro w w2 w3 w4
    simp only [setField, hDtot, List.set_set]
  have hk1 : ((["line_items", idxStr, f] : List String).get? 1).bind
      (fun k => parseNatDigits k.data) = some idx := by
    show (some idxStr).bind (fun k => parseNatDigits k.data) = some idx
    rw [Option.some_bind, hidx]
  have hdl : (["line_items", idxStr, f] : List String).dropLast = ["line_items", idxStr] := rfl
  have hgl : (["line_items", idxStr, f] : List String).getLast? = some f := rfl
  have hE : handleEditFieldStore σ r field v = handleEditFieldStore σ r field v := rfl
  nth_rewrite 2 [handleEditFieldStore] at hE
  rw [hr] at hE
  simp only [allocObj, hsplit, hdl, hgl, hw, hinc, if_true, hset1,
    recomputeStore, hk1, hgfA1, hA1items, Option.some_bind, helem, hsetTot,
    hBitems, hgfBtot, hsetSub, hsetTax, hsetTot2] at hE
  have hstore : ∃ w1 w2 w3 w4 : JVal,
      handleEditFieldStore σ r field v
        = (((σ ++ [JObj.obj fs]).set itemRef (((JObj.obj ifs).set f v).set "total" w1)).set
             totalsRef ((((JObj.obj tfs).set "subtotal" w2).set "tax_amount" w3).set
               "total" w4),
           σ.length) := ⟨_, _, _, _, hE⟩
  obtain ⟨w1, w2, w3, w4, hst⟩ := hstore
  rw [hst]
  have hFr : (((σ ++ [JObj.obj fs]).set itemRef (((JObj.obj ifs).set f v).set "total" w1)).set
      totalsRef ((((JObj.obj tfs).set "subtotal" w2).set "tax_amount" w3).set
        "total" w4)).get? r = some (JObj.obj fs) := by
    rw [List.get?_set_ne _ _ hd2, List.get?_set_ne _ _ hd1]
    exact h0r
  have hFN : (((σ ++ [JObj.obj fs]).set itemRef (((JObj.obj ifs).set f v).set "total" w1)).set
      totalsRef ((((JObj.obj tfs).set "subtotal" w2).set "tax_amount" w3).set
        "total" w4)).get? σ.length = some (JObj.obj fs) := by
    rw [List.get?_set_ne _ _ (show totalsRef ≠ σ.length by omega),
      List.get?_set_ne _ _ (show itemRef ≠ σ.length by omega)]
    exact hga
  have hFitems : (((σ ++ [JObj.obj fs]).set itemRef (((JObj.obj ifs).set f v).set
      "total" w1)).set totalsRef ((((JObj.obj tfs).set "subtotal" w2).set "tax_amount" w3).set
        "total" w4)).get? itemsRef = some (JObj.arr es) := by
    rw [List.get?_set_ne _ _ hd4, List.get?_set_ne _ _ hd3]
    exact h0items
  have hFitem : (((σ ++ [JObj.obj fs]).set itemRef (((JObj.obj ifs).set f v).set
      "total" w1)).set totalsRef ((((JObj.obj tfs).set "subtotal" w2).set "tax_amount" w3).set
        "total" w4)).get? itemRef = some (((JObj.obj ifs).set f v).set "total" w1) := by
    rw [List.get?_set_ne _ _ hd5]
    exact List.get?_set_eq_of_lt _ hlA
  refine ⟨rfl, hFr, ?_, ?_⟩
  · have hg1 : getField (((σ ++ [JObj.obj fs]).set itemRef (((JObj.obj ifs).set f v).set
        "total" w1)).set totalsRef ((((JObj.obj tfs).set "subtotal" w2).set
          "tax_amount" w3).set "total" w4)) r "line_items" = some (JVal.jref itemsRef) := by
      rw [getField, hFr, Option.some_bind, hfli]
    have hg2 : getField (((σ ++ [JObj.obj fs]).set itemRef (((JObj.obj ifs).set f v).set
        "total" w1)).set totalsRef ((((JObj.obj tfs).set "subtotal" w2).set
          "tax_amount" w3).set "total" w4)) itemsRef idxStr = some (JVal.jref itemRef) := by
      rw [getField, hFitems, Option.some_bind, harr]
    rw [readPath_step _ _ _ _ _ _ hg1, readPath_step _ _ _ _ _ _ hg2]
    show getField _ itemRef f = some v
    rw [getField, hFitem, Option.some_bind]
    exact (JObj.get_set_ne (setPairs ifs f v) "total" f w1 hfT).trans
      (JObj.get_set_self ifs f v)
  · exact readPath_congr _ _ _ (JObj.obj fs) hFr hFN

/-- Claim C4, amended: handleEditField produces a new top-level snapshot
object and leaves the original top-level object itself untouched, but the
nested objects - the header, the line_items array, the line items and the
totals - are shared rather than copied.  For every nested dotted path the
UI uses, header fields as well as line-item fields, the edit is written
through the shared nested object and is therefore visible through the
caller snapshot as well; after a line-item edit every dotted readout
through the original snapshot (the edited field, the recomputed line total,
the recomputed totals included) equals the readout through the newly
produced snapshot, so nothing is visible only in the new snapshot. -/
theorem handleEditFieldStore_nested_paths :
    (∀ (σ : JStore) (r h : ℕ) (fs hfs : List (String × JVal)) (f : String) (v : JVal),
      σ.get? r = some (JObj.obj fs) →
      σ.get? h = some (JObj.obj hfs) →
      (JObj.obj fs).get "header" = some (JVal.jref h) →
      h ≠ r →
      splitDots ("header." ++ f) = ["header", f] →
      includesLineItems ("header." ++ f) = false →
      (handleEditFieldStore σ r ("header." ++ f) v).2 = σ.length ∧
      (handleEditFieldStore σ r ("header." ++ f) v).1.get? r = some (JObj.obj fs) ∧
      readPath (handleEditFieldStore σ r ("header." ++ f) v).1 r ["header", f] = some v ∧
      readPath (handleEditFieldStore σ r ("header." ++ f) v).1
        (handleEditFieldStore σ r ("header." ++ f) v).2 ["header", f] = some v) ∧
    (∀ (σ : JStore) (r itemsRef itemRef totalsRef : ℕ)
      (fs ifs tfs : List (String × JVal)) (es : List JVal) (idx : ℕ)
      (idxStr f field : String) (v : JVal),
      σ.get? r = some (JObj.obj fs) →
      σ.get? itemsRef = some (JObj.arr es) →
      σ.get? itemRef = some (JObj.obj ifs) →
      σ.get? totalsRef = some (JObj.obj tfs) →
      (JObj.obj fs).get "line_items" = some (JVal.jref itemsRef) →
      (JObj.obj fs).get "totals" = some (JVal.jref totalsRef) →
      parseNatDigits idxStr.data = some idx →
      es.get? idx = some (JVal.jref itemRef) →
      itemRef ≠ r → totalsRef ≠ r →
      itemRef ≠ itemsRef → totalsRef ≠ itemsRef → totalsRef ≠ itemRef →
      splitDots field = ["line_items", idxStr, f] →
      includesLineItems field = true →
      f ≠ "total" →
      (handleEditFieldStore σ r field v).2 = σ.length ∧
      (handleEditFieldStore σ r field v).1.get? r = some (JObj.obj fs) ∧
      readPath (handleEditFieldStore σ r field v).1 r ["line_items", idxStr, f] = some v ∧
      (∀ p : List String, p ≠ [] →
        readPath (handleEditFieldStore σ r field v).1 r p
          = readPath (handleEditFieldStore σ r field v).1
              (handleEditFieldStore σ r field v).2 p)) :=
  ⟨fun σ r h fs hfs f v h1 h2 h3 h4 h5 h6 =>
    handleEditFieldStore_header_edit σ r h fs hfs f v h1 h2 h3 h4 h5 h6,
   fun σ r itemsRef itemRef totalsRef fs ifs tfs es idx idxStr f field v
      h1 h2 h3 h4 h5 h6 h7 h8 h9 h10 h11 h12 h13 h14 h15 h16 =>
    handleEditFieldStore_item_edit σ r itemsRef itemRef totalsRef fs ifs tfs es idx
      idxStr f field v h1 h2 h3 h4 h5 h6 h7 h8 h9 h10 h11 h12 h13 h14 h15 h16⟩

/-- Witness for the amended claim C4 on the concrete store: a header edit
is readable through the original snapshot reference 0; a quantity edit on
line 0 is also readable through reference 0; and after that edit the
totals.subtotal readout through the original snapshot equals the readout
through the new snapshot. -/
theorem handleEditFieldStore_nested_paths_witness :
    readPath (handleEditFieldStore storeC4 0 "header.invoice_number" (JVal.jstr "INV-2")).1
      0 ["header", "invoice_number"] = some (JVal.jstr "INV-2") ∧
    readPath (handleEditFieldStore storeC4 0 "line_items.0.quantity" (JVal.jnum 3)).1
      0 ["line_items", "0", "quantity"] = some (JVal.jnum 3) ∧
    readPath (handleEditFieldStore storeC4 0 "line_items.0.quantity" (JVal.jnum 3)).1
      0 ["totals", "subtotal"]
      = readPath (handleEditFieldStore storeC4 0 "line_items.0.quantity" (JVal.jnum 3)).1
          (handleEditFieldStore storeC4 0 "line_items.0.quantity" (JVal.jnum 3)).2
          ["totals", "subtotal"] := by
  have hA := handleEditFieldStore_nested_paths.1 storeC4 0 1
    [("header", JVal.jref 1), ("line_items", JVal.jref 2), ("totals", JVal.jref 4)]
    [("invoice_number", JVal.jstr "INV-1"), ("date", JVal.jstr "2024-01-01"),
     ("customer_id", JVal.jnull), ("company_name", JVal.jstr "ACME")]
    "invoice_number" (JVal.jstr "INV-2")
    (by decide) (by decide) (by decide) (by decide) (by decide) (by decide)
  have hB := handleEditFieldStore_nested_paths.2 storeC4 0 2 3 4
    [("header", JVal.jref 1), ("line_items", JVal.jref 2), ("totals", JVal.jref 4)]
    [("item_number", JVal.jstr "1"), ("description", JVal.jstr "widget"),
     ("quantity", JVal.jnum 1), ("unit_price", JVal.jnum 10), ("total", JVal.jnum 10)]
    [("subtotal", JVal.jnum 10), ("tax_rate", JVal.jnum 8), ("tax_amount", JVal.jnum 1),
     ("shipping", JVal.jnum 5), ("total", JVal.jnum 16)]
    [JVal.jref 3] 0 "0" "quantity" "line_items.0.quantity" (JVal.jnum 3)
    (by decide) (by decide) (by decide) (by decide) (by decide) (by decide)
    (by decide) (by decide) (by decide) (by decide) (by decide) (by decide)
    (by decide) (by decide) (by decide) (by decide)
  exact ⟨hA.2.2.1, hB.2.2.1, hB.2.2.2 ["totals", "subtotal"] (by decide)⟩
